import Mathlib

/-!
Verification of the MCPHost tool broker and orchestration loop.

This file gives a shallow embedding of the core of the `mcphost` repository:

* the orchestration loop `Agent.GenerateWithLoop` (internal/agent/agent.go),
  embedded as `MCPHost.generateWithLoopAux` over pure message lists together
  with an explicit event trace, and as `MCPHost.generateWithLoopH` over an
  explicit heap of Go slices (used for the frame property);
* the tool broker (internal/tools/mcp.go): `LoadTools`, `shouldIncludeTool`,
  `createMCPClient`, `InvokableRun`, `Close`;
* the configuration layer (internal/config/config.go): `MCPServerConfig`,
  `Config.Validate`, and the validation step of `LoadMCPConfig`.

External collaborators (the model provider, the MCP client library, JSON
parsing) are parameters of the embedding; everything else is transcribed
from the Go source.
-/

namespace MCPHost

/-- Role of a conversation message (eino schema message roles). -/
inductive Role
  | system
  | user
  | assistant
  | tool
deriving DecidableEq, Repr

/-- One tool-call request issued by the model (schema.ToolCall: id plus
function name and JSON argument payload). -/
structure ToolCall where
  id : String
  name : String
  arguments : String
deriving DecidableEq, Repr

/-- A conversation message (schema.Message): role, text content, the id of
the tool call a tool-role message answers, and the tool-call requests an
assistant message carries. -/
structure Message where
  role : Role
  content : String
  toolCallId : String
  toolCalls : List ToolCall
deriving DecidableEq, Repr

/-- schema.SystemMessage: a system-role message with the given content. -/
def systemMessage (content : String) : Message :=
  ⟨Role.system, content, "", []⟩

/-- schema.AssistantMessage: an assistant-role message with content and
tool calls. -/
def assistantMessage (content : String) (toolCalls : List ToolCall) : Message :=
  ⟨Role.assistant, content, "", toolCalls⟩

/-- schema.ToolMessage: a tool-role result message with content and the id
of the tool call it answers. -/
def toolMessage (content : String) (toolCallId : String) : Message :=
  ⟨Role.tool, content, toolCallId, []⟩

/-- The fixed terminal message returned when the step budget is exhausted
(agent.go line 448). -/
def maxStepsMessage : Message :=
  assistantMessage "Maximum number of steps reached." []

/-- The model adapter as seen by the loop: `a.model.Generate` takes the
working history and returns one response message or an error. -/
def Model := List Message → Except String Message

/-- An invokable tool as seen by the loop: `InvokableRun` takes the JSON
argument string and returns output text or an error. -/
def ToolFn := String → Except String String

/-- The tool catalogue `toolMap` built before the loop (agent.go lines
373-382): qualified name to invokable tool, `none` when absent. -/
def ToolMap := String → Option ToolFn

/-- Observable events of one `GenerateWithLoop` run, in execution order:
model generate calls (with the history they see), tool invocations,
appends to the working history, and the synchronous handler notifications. -/
inductive Event
  | generate (history : List Message)
  | invoke (name : String) (args : String)
  | append (m : Message)
  | onToolCallContent (content : String)
  | onToolCall (name : String) (args : String)
  | onToolResult (name : String) (args : String) (result : String) (isError : Bool)
  | onResponse (content : String)
deriving DecidableEq, Repr

/-- Processing of a single tool-call request (agent.go lines 403-437):
notify the handler, resolve the name in the catalogue, invoke when present,
and synthesize the tool-result message that is appended to the working
history. Returns the event trace of the request and that message. -/
def execToolCall (toolMap : ToolMap) (tc : ToolCall) : List Event × Message :=
  match toolMap tc.name with
  | some run =>
    match run tc.arguments with
    | Except.error e =>
      let errorMsg := "Tool execution error: " ++ e
      ([Event.onToolCall tc.name tc.arguments,
        Event.invoke tc.name tc.arguments,
        Event.append (toolMessage errorMsg tc.id),
        Event.onToolResult tc.name tc.arguments errorMsg true],
       toolMessage errorMsg tc.id)
    | Except.ok output =>
      ([Event.onToolCall tc.name tc.arguments,
        Event.invoke tc.name tc.arguments,
        Event.append (toolMessage output tc.id),
        Event.onToolResult tc.name tc.arguments output false],
       toolMessage output tc.id)
  | none =>
    let errorMsg := "Tool not found: " ++ tc.name
    ([Event.onToolCall tc.name tc.arguments,
      Event.append (toolMessage errorMsg tc.id),
      Event.onToolResult tc.name tc.arguments errorMsg true],
     toolMessage errorMsg tc.id)

/-- The tool-result message synthesized for one request. -/
def resultMessage (toolMap : ToolMap) (tc : ToolCall) : Message :=
  (execToolCall toolMap tc).2

/-- Sequential processing of all tool-call requests of one response, in the
order the model issued them (the `for _, toolCall := range response.ToolCalls`
loop): the concatenated event trace and the list of appended result
messages. -/
def execToolCalls (toolMap : ToolMap) : List ToolCall → List Event × List Message
  | [] => ([], [])
  | tc :: rest =>
    let stepTrace := execToolCall toolMap tc
    let restTrace := execToolCalls toolMap rest
    (stepTrace.1 ++ restTrace.1, stepTrace.2 :: restTrace.2)

/-- The main loop of `GenerateWithLoop` (agent.go lines 385-448), with the
remaining step budget as fuel: call the model on the working history,
append its response, and either finish (no tool calls) or process every
tool call and recurse; fuel 0 returns the fixed terminal message. -/
def generateWithLoopAux (model : Model) (toolMap : ToolMap) :
    Nat → List Message → List Event × Except String Message
  | 0, _ => ([], Except.ok maxStepsMessage)
  | fuel + 1, working =>
    match model working with
    | Except.error e =>
      ([Event.generate working], Except.error ("failed to generate response: " ++ e))
    | Except.ok response =>
      if response.toolCalls.length > 0 then
        let contentEvs :=
          if response.content ≠ "" then [Event.onToolCallContent response.content] else []
        let callTrace := execToolCalls toolMap response.toolCalls
        let nextWorking := (working ++ [response]) ++ callTrace.2
        let rest := generateWithLoopAux model toolMap fuel nextWorking
        (((Event.generate working :: Event.append response :: contentEvs) ++
            callTrace.1) ++ rest.1,
         rest.2)
      else
        let respEvs :=
          if response.content ≠ "" then [Event.onResponse response.content] else []
        ((Event.generate working :: Event.append response :: respEvs),
         Except.ok response)

/-- The system-prompt step of `GenerateWithLoop` (agent.go lines 358-368):
when a system prompt is configured and the first working message is not
already system-role, a system message is placed in front. -/
def withSystemPrompt (systemPrompt : String) (messages : List Message) : List Message :=
  if systemPrompt ≠ "" then
    match messages with
    | m :: rest =>
      if m.role = Role.system then m :: rest
      else systemMessage systemPrompt :: m :: rest
    | [] => [systemMessage systemPrompt]
  else messages

/-- `Agent.GenerateWithLoop` over pure message lists: copy the caller's
messages, add the system prompt, then run the bounded loop with
`maxSteps` as the step budget. -/
def generateWithLoop (model : Model) (toolMap : ToolMap) (systemPrompt : String)
    (maxSteps : Nat) (messages : List Message) : List Event × Except String Message :=
  generateWithLoopAux model toolMap maxSteps (withSystemPrompt systemPrompt messages)

/-- Number of model generate calls recorded in a trace. -/
def countGenerates (evs : List Event) : Nat :=
  (evs.filter fun e =>
    match e with
    | Event.generate _ => true
    | _ => false).length

/-- The messages appended to the working history, in trace order. -/
def appendsOf (evs : List Event) : List Message :=
  evs.filterMap fun e =>
    match e with
    | Event.append m => some m
    | _ => none

/-- The tool invocations performed, in trace order. -/
def invokesOf (evs : List Event) : List (String × String) :=
  evs.filterMap fun e =>
    match e with
    | Event.invoke n a => some (n, a)
    | _ => none

/-! ## Configuration layer (internal/config/config.go) -/

/-- MCPServerConfig: one tool-provider spec (config.go lines 11-18). -/
structure MCPServerConfig where
  command : String
  args : List String
  url : String
  headers : List String
  allowedTools : List String
  excludedTools : List String
deriving DecidableEq, Repr

/-- Config: the application configuration (config.go lines 21-23).  The Go
`map[string]MCPServerConfig` is embedded as an association list whose order
stands for one iteration order of the map. -/
structure Config where
  mcpServers : List (String × MCPServerConfig)
deriving DecidableEq, Repr

/-- Config.Validate (config.go lines 26-33): reject any server spec in
which both allowedTools and excludedTools are non-empty. -/
def Config.validate (c : Config) : Except String Unit :=
  match c.mcpServers.find? (fun p =>
      decide (p.2.allowedTools.length > 0) && decide (p.2.excludedTools.length > 0)) with
  | some p =>
    Except.error ("server " ++ p.1 ++ ": allowedTools and excludedTools are mutually exclusive")
  | none => Except.ok ()

/-- The validation step of LoadMCPConfig (config.go lines 84-87): after a
configuration has been parsed, it is returned only when `Validate`
accepts it. -/
def loadMCPConfigValidation (c : Config) : Except String Config :=
  match c.validate with
  | Except.error e => Except.error e
  | Except.ok _ => Except.ok c

/-! ## Tool broker (internal/tools/mcp.go) -/

/-- The request `createMCPClient` hands to the MCP client library: either a
stdio client spawned from a command and arguments, or an SSE client opened
on a URL (mcp.go lines 176-196; note the SSE constructor receives the URL
only). -/
inductive ClientRequest
  | stdio (command : String) (args : List String)
  | sse (url : String)
deriving DecidableEq, Repr

/-- createMCPClient (mcp.go lines 176-196), as the client-library request it
issues: a command spec yields a stdio client, else a URL spec yields an SSE
client built from `serverConfig.URL`, else the configuration is invalid. -/
def createMCPClientRequest (serverName : String) (serverConfig : MCPServerConfig) :
    Except String ClientRequest :=
  if serverConfig.command ≠ "" then
    Except.ok (ClientRequest.stdio serverConfig.command serverConfig.args)
  else if serverConfig.url ≠ "" then
    Except.ok (ClientRequest.sse serverConfig.url)
  else
    Except.error ("invalid server configuration for " ++ serverName ++
      ": must specify either command or url")

/-- shouldIncludeTool (mcp.go lines 152-174): with a non-empty allow-list
only listed tools are kept; otherwise with a non-empty deny-list listed
tools are dropped; otherwise every tool is kept. -/
def shouldIncludeTool (toolName : String) (serverConfig : MCPServerConfig) : Bool :=
  if serverConfig.allowedTools.length > 0 then
    serverConfig.allowedTools.contains toolName
  else if serverConfig.excludedTools.length > 0 then
    !(serverConfig.excludedTools.contains toolName)
  else
    true

/-- The qualified registered name of a tool (mcp.go line 127):
`fmt.Sprintf("%s__%s", serverName, mcpTool.Name)`. -/
def qualifiedToolName (serverName : String) (rawName : String) : String :=
  serverName ++ "__" ++ rawName

/-- One registered broker tool: the owning client, the provider-side raw
name, and the qualified name it is registered under. -/
structure LoadedTool where
  clientId : Nat
  rawName : String
  name : String
deriving DecidableEq, Repr

/-- The externally observable behavior of one provider during load: the
result of creating its client (a client id on success), of the initialize
handshake, and of listing its raw tool names. -/
structure ServerBehavior where
  createResult : Except String Nat
  initResult : Except String Unit
  listToolsResult : Except String (List String)

/-- A world assigning each provider name its load-time behavior. -/
def LoadWorld := String → ServerBehavior

/-- Connection attempts made during load, in order. -/
inductive LoadEvent
  | connect (serverName : String) (req : ClientRequest)
deriving DecidableEq, Repr

/-- The per-server body of LoadTools (mcp.go lines 98-131): create the
client (a connection attempt occurs exactly when the spec is well formed),
initialize it, list its tools, keep those passing the filter, and register
each kept tool under its qualified name. -/
def loadServer (world : LoadWorld) (serverName : String) (serverConfig : MCPServerConfig) :
    List LoadEvent × Except String (List LoadedTool) :=
  match createMCPClientRequest serverName serverConfig with
  | Except.error e =>
    ([], Except.error ("failed to create MCP client for " ++ serverName ++ ": " ++ e))
  | Except.ok req =>
    match (world serverName).createResult with
    | Except.error e =>
      ([LoadEvent.connect serverName req],
       Except.error ("failed to create MCP client for " ++ serverName ++ ": " ++ e))
    | Except.ok clientId =>
      match (world serverName).initResult with
      | Except.error e =>
        ([LoadEvent.connect serverName req],
         Except.error ("failed to initialize MCP client for " ++ serverName ++ ": " ++ e))
      | Except.ok _ =>
        match (world serverName).listToolsResult with
        | Except.error e =>
          ([LoadEvent.connect serverName req],
           Except.error ("failed to list tools from server " ++ serverName ++ ": " ++ e))
        | Except.ok rawNames =>
          ([LoadEvent.connect serverName req],
           Except.ok ((rawNames.filter (fun n => shouldIncludeTool n serverConfig)).map
             (fun n => LoadedTool.mk clientId n (qualifiedToolName serverName n))))

/-- LoadTools (mcp.go lines 97-134) over the configured provider list:
servers are processed in order; the first failure aborts the whole load. -/
def loadTools (world : LoadWorld) :
    List (String × MCPServerConfig) → List LoadEvent × Except String (List LoadedTool)
  | [] => ([], Except.ok [])
  | (serverName, serverConfig) :: rest =>
    let this := loadServer world serverName serverConfig
    match this.2 with
    | Except.error e => (this.1, Except.error e)
    | Except.ok toolsHere =>
      let restResult := loadTools world rest
      match restResult.2 with
      | Except.error e => (this.1 ++ restResult.1, Except.error e)
      | Except.ok toolsRest => (this.1 ++ restResult.1, Except.ok (toolsHere ++ toolsRest))

/-- The normal-mode pipeline: a parsed configuration passes through the
`Validate` step of LoadMCPConfig before NewAgent ever calls LoadTools. -/
def loadConfigThenTools (world : LoadWorld) (c : Config) :
    List LoadEvent × Except String (List LoadedTool) :=
  match loadMCPConfigValidation c with
  | Except.error e => ([], Except.error e)
  | Except.ok c => loadTools world c.mcpServers

/-- Close (mcp.go lines 142-149) over the tracked clients in one iteration
order, each paired with the result its Close would produce: returns the
clients actually closed, in order, and the final result.  A failing close
is wrapped and returned at once. -/
def closeClients : List (String × Except String Unit) → List String × Except String Unit
  | [] => ([], Except.ok ())
  | (name, r) :: rest =>
    match r with
    | Except.error e =>
      ([name], Except.error ("failed to close client " ++ name ++ ": " ++ e))
    | Except.ok _ =>
      let restResult := closeClients rest
      (name :: restResult.1, restResult.2)

/-! ## Tool invocation (MCPTool.InvokableRun, mcp.go lines 53-80) -/

/-- A content item of an MCP call-tool result: text, or any other content
kind (ignored by the conversion). -/
inductive ContentItem
  | text (s : String)
  | other
deriving DecidableEq, Repr

/-- An MCP call-tool result: `result.Content`, possibly nil. -/
structure CallToolResult where
  content : Option (List ContentItem)
deriving DecidableEq, Repr

/-- The string conversion of a call-tool result (mcp.go lines 68-79):
`resultText += textContent.Text + " "` over the content items. -/
def convertCallResult (result : CallToolResult) : String :=
  match result.content with
  | some items =>
    items.foldl (fun acc it =>
      match it with
      | ContentItem.text s => acc ++ s ++ " "
      | ContentItem.other => acc) ""
  | none => ""

/-- Parsed JSON arguments, as handed to the MCP client. -/
def Args := List (String × String)

/-- The behavior of the connected MCP clients: `callTool clientId rawName
args` is the provider's answer on its own connection. -/
def CallWorld := Nat → String → Args → Except String CallToolResult

/-- InvokableRun (mcp.go lines 53-80): parse the JSON arguments (via the
external JSON decoder `parse`), call the owning client with the tool's raw
name, and convert the result.  The first component lists the client ids
touched by the invocation. -/
def invokableRun (parse : String → Option Args) (callTool : CallWorld)
    (clientId : Nat) (rawName : String) (argumentsInJSON : String) :
    List Nat × Except String String :=
  match parse argumentsInJSON with
  | none => ([], Except.error "failed to parse arguments")
  | some args =>
    match callTool clientId rawName args with
    | Except.error e => ([clientId], Except.error ("failed to call tool: " ++ e))
    | Except.ok result => ([clientId], Except.ok (convertCallResult result))

/-! ## Go slice semantics for the frame behavior of GenerateWithLoop

`GenerateWithLoop` receives the caller's `[]*schema.Message` slice, copies
it into a fresh working slice, and appends only to the copy.  To state that
the caller's slice is untouched we embed the slice operations explicitly:
a heap of backing arrays, slice headers, `make`+`copy`, and Go `append`
(in place while capacity remains, reallocating otherwise). -/

/-- The heap of allocated backing arrays; an array's identity is its index
and its capacity is its length. -/
structure Heap where
  arrays : List (List Message)

/-- A Go slice header: backing array id and length.  `GenerateWithLoop`
never reslices, so the offset is always zero. -/
structure Slice where
  arr : Nat
  len : Nat
deriving DecidableEq, Repr

/-- The backing array of id `i` (empty when out of range). -/
def Heap.arrayAt (h : Heap) (i : Nat) : List Message :=
  h.arrays.getD i []

/-- The message list a slice denotes. -/
def Heap.read (h : Heap) (s : Slice) : List Message :=
  (h.arrayAt s.arr).take s.len

/-- The capacity of a slice. -/
def Heap.cap (h : Heap) (s : Slice) : Nat :=
  (h.arrayAt s.arr).length

/-- Allocate a fresh backing array, returning its id. -/
def Heap.alloc (h : Heap) (contents : List Message) : Heap × Nat :=
  (Heap.mk (h.arrays ++ [contents]), h.arrays.length)

/-- Overwrite backing array `i` in place. -/
def Heap.writeArr (h : Heap) (i : Nat) (contents : List Message) : Heap :=
  Heap.mk (h.arrays.set i contents)

/-- The zero value a freshly made message slice is filled with (nil
pointers in Go). -/
def nilMessage : Message :=
  ⟨Role.user, "", "", []⟩

/-- Go `append` of one element: write in place when capacity remains,
otherwise reallocate with room to grow. -/
def Heap.appendSlice (h : Heap) (s : Slice) (x : Message) : Heap × Slice :=
  if s.len < h.cap s then
    (h.writeArr s.arr ((h.arrayAt s.arr).set s.len x), Slice.mk s.arr (s.len + 1))
  else
    let a := h.alloc (h.read s ++ [x] ++ List.replicate (s.len + 1) nilMessage)
    (a.1, Slice.mk a.2 (s.len + 1))

/-- Go `copy(dst, src)` on backing-array contents: overwrite the first
`min (dst.length) (src.length)` entries of `dst` with `src`. -/
def copyInto (dst : List Message) (src : List Message) : List Message :=
  src.take dst.length ++ dst.drop src.length

/-- The system-prompt step (agent.go lines 358-368) at slice level: when a
prompt is configured and the first working entry is not system-role, a new
backing array headed by the system message is allocated. -/
def withSystemPromptH (systemPrompt : String) (h : Heap) (w : Slice) : Heap × Slice :=
  if systemPrompt ≠ "" then
    let hasSystem :=
      match h.read w with
      | m :: _ => decide (m.role = Role.system)
      | [] => false
    if hasSystem then (h, w)
    else
      let a := h.alloc (systemMessage systemPrompt :: h.read w)
      (a.1, Slice.mk a.2 (w.len + 1))
  else (h, w)

/-- Tool-call processing at slice level: each synthesized result message is
appended to the working slice in request order (agent.go lines 403-437). -/
def execToolCallsH (toolMap : ToolMap) : List ToolCall → Heap → Slice → Heap × Slice
  | [], h, s => (h, s)
  | tc :: rest, h, s =>
    let hs := h.appendSlice s (resultMessage toolMap tc)
    execToolCallsH toolMap rest hs.1 hs.2

/-- The main loop of GenerateWithLoop at slice level (agent.go lines
385-448): the model reads the working slice, its response is appended, and
tool results are appended to the working slice only. -/
def generateWithLoopAuxH (model : Model) (toolMap : ToolMap) :
    Nat → Heap → Slice → Heap × Except String Message
  | 0, h, _ => (h, Except.ok maxStepsMessage)
  | fuel + 1, h, working =>
    match model (h.read working) with
    | Except.error e =>
      (h, Except.error ("failed to generate response: " ++ e))
    | Except.ok response =>
      let hw := h.appendSlice working response
      if response.toolCalls.length > 0 then
        let hw2 := execToolCallsH toolMap response.toolCalls hw.1 hw.2
        generateWithLoopAuxH model toolMap fuel hw2.1 hw2.2
      else
        (hw.1, Except.ok response)

/-- GenerateWithLoop at slice level (agent.go lines 350-449): make a fresh
working slice of the caller's length, copy the caller's messages into it,
add the system prompt, and run the loop on the copy. -/
def generateWithLoopH (model : Model) (toolMap : ToolMap) (systemPrompt : String)
    (maxSteps : Nat) (h : Heap) (messages : Slice) : Heap × Except String Message :=
  let a1 := h.alloc (List.replicate messages.len nilMessage)
  let h1 := a1.1
  let w1 : Slice := Slice.mk a1.2 messages.len
  let h2 := h1.writeArr w1.arr (copyInto (h1.arrayAt w1.arr) (h1.read messages))
  let sys := withSystemPromptH systemPrompt h2 w1
  generateWithLoopAuxH model toolMap maxSteps sys.1 sys.2

/-! ## Trace lemmas for the orchestration loop -/

lemma countGenerates_append (a b : List Event) :
    countGenerates (a ++ b) = countGenerates a + countGenerates b := by
  simp [countGenerates, List.filter_append]

lemma appendsOf_append (a b : List Event) :
    appendsOf (a ++ b) = appendsOf a ++ appendsOf b := by
  simp [appendsOf, List.filterMap_append]

lemma invokesOf_append (a b : List Event) :
    invokesOf (a ++ b) = invokesOf a ++ invokesOf b := by
  simp [invokesOf, List.filterMap_append]

lemma execToolCall_none (toolMap : ToolMap) (tc : ToolCall)
    (h : toolMap tc.name = none) :
    execToolCall toolMap tc =
      ([Event.onToolCall tc.name tc.arguments,
        Event.append (toolMessage ("Tool not found: " ++ tc.name) tc.id),
        Event.onToolResult tc.name tc.arguments ("Tool not found: " ++ tc.name) true],
       toolMessage ("Tool not found: " ++ tc.name) tc.id) := by
  unfold execToolCall
  simp only [h]

lemma execToolCall_error (toolMap : ToolMap) (tc : ToolCall) (run : ToolFn) (e : String)
    (h : toolMap tc.name = some run) (h2 : run tc.arguments = Except.error e) :
    execToolCall toolMap tc =
      ([Event.onToolCall tc.name tc.arguments,
        Event.invoke tc.name tc.arguments,
        Event.append (toolMessage ("Tool execution error: " ++ e) tc.id),
        Event.onToolResult tc.name tc.arguments ("Tool execution error: " ++ e) true],
       toolMessage ("Tool execution error: " ++ e) tc.id) := by
  unfold execToolCall
  simp only [h, h2]

lemma execToolCall_ok (toolMap : ToolMap) (tc : ToolCall) (run : ToolFn) (output : String)
    (h : toolMap tc.name = some run) (h2 : run tc.arguments = Except.ok output) :
    execToolCall toolMap tc =
      ([Event.onToolCall tc.name tc.arguments,
        Event.invoke tc.name tc.arguments,
        Event.append (toolMessage output tc.id),
        Event.onToolResult tc.name tc.arguments output false],
       toolMessage output tc.id) := by
  unfold execToolCall
  simp only [h, h2]

lemma countGenerates_execToolCall (toolMap : ToolMap) (tc : ToolCall) :
    countGenerates (execToolCall toolMap tc).1 = 0 := by
  rcases h : toolMap tc.name with _ | run
  · rw [execToolCall_none toolMap tc h]; rfl
  · rcases h2 : run tc.arguments with e | output
    · rw [execToolCall_error toolMap tc run e h h2]; rfl
    · rw [execToolCall_ok toolMap tc run output h h2]; rfl

lemma appendsOf_execToolCall (toolMap : ToolMap) (tc : ToolCall) :
    appendsOf (execToolCall toolMap tc).1 = [resultMessage toolMap tc] := by
  unfold resultMessage
  rcases h : toolMap tc.name with _ | run
  · rw [execToolCall_none toolMap tc h]; rfl
  · rcases h2 : run tc.arguments with e | output
    · rw [execToolCall_error toolMap tc run e h h2]; rfl
    · rw [execToolCall_ok toolMap tc run output h h2]; rfl

lemma invokesOf_execToolCall_some (toolMap : ToolMap) (tc : ToolCall)
    (h : (toolMap tc.name).isSome) :
    invokesOf (execToolCall toolMap tc).1 = [(tc.name, tc.arguments)] := by
  obtain ⟨run, hr⟩ := Option.isSome_iff_exists.mp h
  rcases h2 : run tc.arguments with e | output
  · rw [execToolCall_error toolMap tc run e hr h2]; rfl
  · rw [execToolCall_ok toolMap tc run output hr h2]; rfl

lemma execToolCalls_snd (toolMap : ToolMap) :
    ∀ tcs : List ToolCall, (execToolCalls toolMap tcs).2 = tcs.map (resultMessage toolMap)
  | [] => rfl
  | tc :: rest => by
    simp only [execToolCalls, List.map_cons]
    rw [execToolCalls_snd toolMap rest]
    rfl

lemma execToolCalls_fst (toolMap : ToolMap) :
    ∀ tcs : List ToolCall,
      (execToolCalls toolMap tcs).1 = tcs.flatMap (fun tc => (execToolCall toolMap tc).1)
  | [] => rfl
  | tc :: rest => by
    simp only [execToolCalls, List.flatMap_cons]
    rw [execToolCalls_fst toolMap rest]

lemma countGenerates_execToolCalls (toolMap : ToolMap) :
    ∀ tcs : List ToolCall, countGenerates (execToolCalls toolMap tcs).1 = 0
  | [] => rfl
  | tc :: rest => by
    simp only [execToolCalls]
    rw [countGenerates_append, countGenerates_execToolCall,
      countGenerates_execToolCalls toolMap rest]

lemma appendsOf_execToolCalls (toolMap : ToolMap) :
    ∀ tcs : List ToolCall,
      appendsOf (execToolCalls toolMap tcs).1 = tcs.map (resultMessage toolMap)
  | [] => rfl
  | tc :: rest => by
    simp only [execToolCalls, List.map_cons]
    rw [appendsOf_append, appendsOf_execToolCall,
      appendsOf_execToolCalls toolMap rest]
    rfl

lemma invokesOf_execToolCalls (toolMap : ToolMap) :
    ∀ tcs : List ToolCall, (∀ tc ∈ tcs, (toolMap tc.name).isSome) →
      invokesOf (execToolCalls toolMap tcs).1 = tcs.map (fun tc => (tc.name, tc.arguments))
  | [], _ => rfl
  | tc :: rest, h => by
    simp only [execToolCalls, List.map_cons]
    rw [invokesOf_append, invokesOf_execToolCall_some toolMap tc (h tc (List.mem_cons_self tc rest)),
      invokesOf_execToolCalls toolMap rest (fun x hx => h x (List.mem_cons_of_mem tc hx))]
    rfl

lemma generateWithLoopAux_step (model : Model) (toolMap : ToolMap) (fuel : Nat)
    (working : List Message) (response : Message)
    (hmodel : model working = Except.ok response) (hne : response.toolCalls ≠ []) :
    generateWithLoopAux model toolMap (fuel + 1) working =
      (((Event.generate working :: Event.append response ::
          (if response.content ≠ "" then [Event.onToolCallContent response.content] else [])) ++
         (execToolCalls toolMap response.toolCalls).1) ++
        (generateWithLoopAux model toolMap fuel
          ((working ++ [response]) ++ (execToolCalls toolMap response.toolCalls).2)).1,
       (generateWithLoopAux model toolMap fuel
          ((working ++ [response]) ++ (execToolCalls toolMap response.toolCalls).2)).2) := by
  have hlen : response.toolCalls.length > 0 := List.length_pos.mpr hne
  simp only [generateWithLoopAux, hmodel]
  rw [if_pos hlen]

lemma generateWithLoopAux_final (model : Model) (toolMap : ToolMap) (fuel : Nat)
    (working : List Message) (response : Message)
    (hmodel : model working = Except.ok response) (hnil : response.toolCalls = []) :
    generateWithLoopAux model toolMap (fuel + 1) working =
      (Event.generate working :: Event.append response ::
        (if response.content ≠ "" then [Event.onResponse response.content] else []),
       Except.ok response) := by
  simp only [generateWithLoopAux, hmodel]
  rw [if_neg (by simp [hnil])]

lemma generateWithLoopAux_head (model : Model) (toolMap : ToolMap) (fuel : Nat)
    (working : List Message) :
    ∃ t, (generateWithLoopAux model toolMap (fuel + 1) working).1 =
      Event.generate working :: t := by
  rcases hm : model working with e | response
  · exact ⟨[], by simp only [generateWithLoopAux, hm]⟩
  · by_cases hne : response.toolCalls = []
    · rw [generateWithLoopAux_final model toolMap fuel working response hm hne]
      exact ⟨_, rfl⟩
    · rw [generateWithLoopAux_step model toolMap fuel working response hm hne]
      exact ⟨_, rfl⟩

lemma countGenerates_loop_head (response : Message) (working : List Message) :
    countGenerates (Event.generate working :: Event.append response ::
      (if response.content ≠ "" then [Event.onToolCallContent response.content] else [])) = 1 := by
  by_cases h : response.content = "" <;> simp [countGenerates, h]

/-- Helper for the step-budget claim: a model that always requests a tool
call drives the loop to fuel exhaustion, with one generate call per unit
of fuel. -/
lemma loop_exhausts (model : Model) (toolMap : ToolMap)
    (hModel : ∀ hist, ∃ r, model hist = Except.ok r ∧ r.toolCalls ≠ []) :
    ∀ (fuel : Nat) (working : List Message),
      (generateWithLoopAux model toolMap fuel working).2 = Except.ok maxStepsMessage ∧
      countGenerates (generateWithLoopAux model toolMap fuel working).1 = fuel := by
  intro fuel
  induction fuel with
  | zero => intro working; exact ⟨rfl, rfl⟩
  | succ n ih =>
    intro working
    obtain ⟨r, hr, hrne⟩ := hModel working
    rw [generateWithLoopAux_step model toolMap n working r hr hrne]
    refine ⟨(ih _).1, ?_⟩
    rw [countGenerates_append, countGenerates_append, countGenerates_loop_head,
      countGenerates_execToolCalls, (ih _).2]
    omega

/-- C2: with a configured maximum of K steps (K at least 1) and a model that
returns a tool-call request on every response, GenerateWithLoop performs
exactly K model generate calls — never K + 1 — and then returns the fixed
terminal message "Maximum number of steps reached." as a non-error
result. -/
theorem generateWithLoop_step_budget (model : Model) (toolMap : ToolMap)
    (systemPrompt : String) (K : Nat) (messages : List Message)
    (hModel : ∀ hist, ∃ r, model hist = Except.ok r ∧ r.toolCalls ≠ [])
    (_hK : 1 ≤ K) :
    (generateWithLoop model toolMap systemPrompt K messages).2 =
      Except.ok (assistantMessage "Maximum number of steps reached." []) ∧
    countGenerates (generateWithLoop model toolMap systemPrompt K messages).1 = K :=
  loop_exhausts model toolMap hModel K (withSystemPrompt systemPrompt messages)

/-- A model that always issues one tool-call request (for the step-budget
witness). -/
def alwaysToolModel : Model :=
  fun _ => Except.ok (assistantMessage "" [ToolCall.mk "c1" "t" "a"])

/-- The empty tool catalogue. -/
def emptyToolMap : ToolMap := fun _ => none

/-- Witness for C2 at K = 3: the hypotheses hold for `alwaysToolModel`, and
the loop makes exactly 3 generate calls and returns the terminal message. -/
theorem generateWithLoop_step_budget_witness :
    (∀ hist, ∃ r, alwaysToolModel hist = Except.ok r ∧ r.toolCalls ≠ []) ∧ 1 ≤ 3 ∧
    ((generateWithLoop alwaysToolModel emptyToolMap "" 3 []).2 =
        Except.ok (assistantMessage "Maximum number of steps reached." []) ∧
      countGenerates (generateWithLoop alwaysToolModel emptyToolMap "" 3 []).1 = 3) :=
  ⟨fun _ => ⟨assistantMessage "" [ToolCall.mk "c1" "t" "a"], rfl, by decide⟩,
   by decide,
   generateWithLoop_step_budget alwaysToolModel emptyToolMap "" 3 []
     (fun _ => ⟨assistantMessage "" [ToolCall.mk "c1" "t" "a"], rfl, by decide⟩) (by decide)⟩

/-- C7 counterexample: with two tracked clients whose closes both fail,
Close closes only the first client in iteration order, never reaches the
second, and returns that first wrapped error alone rather than an
aggregate — so it is not best-effort and does not close every
connection. -/
theorem closeClients_counterexample :
    closeClients [("a", Except.error "x"), ("b", Except.error "y")] =
      (["a"], Except.error "failed to close client a: x") ∧
    "b" ∉ (closeClients [("a", Except.error "x"), ("b", Except.error "y")]).1 := by
  exact ⟨rfl, by decide⟩

/-- C7 as amended: Close closes the tracked connections in iteration order
only until the first failing close; when every close succeeds each
connection is closed exactly once and success is returned, but a failing
close stops the iteration at once, the remaining connections are not
closed, and the single wrapped error is returned. -/
theorem closeClients_stops_at_first_error :
    (∀ clients : List (String × Except String Unit),
      (∀ p ∈ clients, p.2 = Except.ok ()) →
      closeClients clients = (clients.map Prod.fst, Except.ok ())) ∧
    (∀ (pre : List (String × Except String Unit)) (name e : String)
        (post : List (String × Except String Unit)),
      (∀ p ∈ pre, p.2 = Except.ok ()) →
      closeClients (pre ++ (name, Except.error e) :: post) =
        (pre.map Prod.fst ++ [name],
         Except.error ("failed to close client " ++ name ++ ": " ++ e))) := by
  constructor
  · intro clients
    induction clients with
    | nil => intro _; rfl
    | cons p rest ih =>
      intro h
      obtain ⟨n, r⟩ := p
      have hr : r = Except.ok () := h (n, r) (List.mem_cons_self _ _)
      subst hr
      simp only [closeClients, List.map_cons]
      rw [ih (fun q hq => h q (List.mem_cons_of_mem _ hq))]
  · intro pre
    induction pre with
    | nil => intro name e post _; rfl
    | cons p rest ih =>
      intro name e post h
      obtain ⟨n, r⟩ := p
      have hr : r = Except.ok () := h (n, r) (List.mem_cons_self _ _)
      subst hr
      simp only [List.cons_append, closeClients, List.map_cons, List.append_eq]
      rw [ih name e post (fun q hq => h q (List.mem_cons_of_mem _ hq))]

/-- Witness for the amended C7: all-success closes everything; a failure
after one successful close stops with only the first two clients closed. -/
theorem closeClients_stops_at_first_error_witness :
    closeClients [("a", Except.ok ())] = (["a"], Except.ok ()) ∧
    closeClients [("a", Except.ok ()), ("b", Except.error "x")] =
      (["a", "b"], Except.error "failed to close client b: x") :=
  ⟨closeClients_stops_at_first_error.1 [("a", Except.ok ())]
     (by intro p hp; rw [List.mem_singleton] at hp; subst hp; rfl),
   closeClients_stops_at_first_error.2 [("a", Except.ok ())] "b" "x" []
     (by intro p hp; rw [List.mem_singleton] at hp; subst hp; rfl)⟩

/-! ## Broker load lemmas -/

lemma loadServer_ok (world : LoadWorld) (serverName : String) (cfg : MCPServerConfig)
    (lt : List LoadedTool) (h : (loadServer world serverName cfg).2 = Except.ok lt) :
    ∃ clientId rawNames, (world serverName).listToolsResult = Except.ok rawNames ∧
      lt = (rawNames.filter (fun r => shouldIncludeTool r cfg)).map
        (fun r => LoadedTool.mk clientId r (qualifiedToolName serverName r)) := by
  unfold loadServer at h
  rcases hreq : createMCPClientRequest serverName cfg with e | req
  · simp [hreq] at h
  · simp only [hreq] at h
    rcases hc : (world serverName).createResult with e | clientId
    · simp [hc] at h
    · simp only [hc] at h
      rcases hi : (world serverName).initResult with e | u
      · simp [hi] at h
      · simp only [hi] at h
        rcases hl : (world serverName).listToolsResult with e | rawNames
        · simp [hl] at h
        · simp only [hl, Except.ok.injEq] at h
          exact ⟨clientId, rawNames, rfl, h.symm⟩

/-- The raw tool names a provider contributes after filtering (used to
describe a successful load; derived, not part of the source). -/
def keptRaw (world : LoadWorld) (p : String × MCPServerConfig) : List String :=
  match (world p.1).listToolsResult with
  | Except.ok rawNames => rawNames.filter (fun r => shouldIncludeTool r p.2)
  | Except.error _ => []

lemma loadTools_ok_flat (world : LoadWorld) :
    ∀ (servers : List (String × MCPServerConfig)) (tools : List LoadedTool),
      (loadTools world servers).2 = Except.ok tools →
      tools.map LoadedTool.name =
        servers.flatMap (fun p => (keptRaw world p).map (qualifiedToolName p.1)) := by
  intro servers
  induction servers with
  | nil =>
    intro tools h
    simp only [loadTools, Except.ok.injEq] at h
    simp [← h]
  | cons p rest ih =>
    intro tools h
    obtain ⟨serverName, cfg⟩ := p
    simp only [loadTools] at h
    rcases hs : (loadServer world serverName cfg).2 with e | toolsHere
    · simp [hs] at h
    · simp only [hs] at h
      rcases hr : (loadTools world rest).2 with e | toolsRest
      · simp [hr] at h
      · simp only [hr, Except.ok.injEq] at h
        obtain ⟨clientId, rawNames, hlist, hlt⟩ := loadServer_ok world serverName cfg toolsHere hs
        subst hlt
        rw [← h]
        simp only [List.map_append, List.flatMap_cons, List.map_map]
        rw [ih toolsRest hr]
        simp [keptRaw, hlist, Function.comp]

lemma loadTools_ok_each (world : LoadWorld)
    (servers : List (String × MCPServerConfig)) (tools : List LoadedTool)
    (h : (loadTools world servers).2 = Except.ok tools) :
    ∀ t ∈ tools, ∃ p ∈ servers.map Prod.fst, t.name = qualifiedToolName p t.rawName := by
  induction servers generalizing tools with
  | nil =>
    simp only [loadTools, Except.ok.injEq] at h
    subst h
    intro t ht
    exact absurd ht (List.not_mem_nil t)
  | cons p rest ih =>
    obtain ⟨serverName, cfg⟩ := p
    simp only [loadTools] at h
    rcases hs : (loadServer world serverName cfg).2 with e | toolsHere
    · simp [hs] at h
    · simp only [hs] at h
      rcases hr : (loadTools world rest).2 with e | toolsRest
      · simp [hr] at h
      · simp only [hr, Except.ok.injEq] at h
        subst h
        intro t ht
        rcases List.mem_append.mp ht with hh | hh
        · obtain ⟨clientId, rawNames, _, hlt⟩ := loadServer_ok world serverName cfg toolsHere hs
          subst hlt
          obtain ⟨r, _, hrfl⟩ := List.mem_map.mp hh
          refine ⟨serverName, by simp, ?_⟩
          rw [← hrfl]
        · obtain ⟨q, hq, hqn⟩ := ih toolsRest hr t hh
          exact ⟨q, by simp [hq], hqn⟩

/-- A provider spec using the stdio transport with no tool filters. -/
def plainCommandConfig : MCPServerConfig :=
  MCPServerConfig.mk "run-server" [] "" [] [] []

/-- A load world in which every provider connects, initializes, and lists
the single raw tool name "fs__x" (its client id is 1). -/
def world6 : LoadWorld :=
  fun _ => ServerBehavior.mk (Except.ok 1) (Except.ok ()) (Except.ok ["fs__x"])

/-- C6 counterexample: a provider named "fs" exposing the raw tool name
"fs__x" — which already begins with the exact prefix "fs__" — is registered
as "fs__fs__x", not as "fs__x": the naming rule is not idempotent and the
name is double-prefixed. -/
theorem qualifiedToolName_not_idempotent :
    (loadTools world6 [("fs", plainCommandConfig)]).2 =
      Except.ok [LoadedTool.mk 1 "fs__x" "fs__fs__x"] ∧
    ("fs__fs__x" : String) ≠ "fs__x" := by
  exact ⟨rfl, by decide⟩

/-- C6 as amended: the broker always registers a kept tool under
`providerName ++ "__" ++ rawName`, with no idempotence guard: every tool of
a successful load is named by `qualifiedToolName` applied to its provider
and raw name, and a raw name that already carries the provider's prefix is
prefixed again (double-prefixed), never used unmodified. -/
theorem qualifiedToolName_always_prefixed (world : LoadWorld)
    (servers : List (String × MCPServerConfig)) (tools : List LoadedTool)
    (hok : (loadTools world servers).2 = Except.ok tools) :
    (∀ t ∈ tools, ∃ p ∈ servers.map Prod.fst, t.name = qualifiedToolName p t.rawName) ∧
    (∀ p r, qualifiedToolName p (qualifiedToolName p r) =
      p ++ "__" ++ (p ++ "__" ++ r)) := by
  refine ⟨loadTools_ok_each world servers tools hok, ?_⟩
  intro p r
  simp [qualifiedToolName, String.append_assoc]

/-- Witness for the amended C6 at the "fs"/"fs__x" load. -/
theorem qualifiedToolName_always_prefixed_witness :
    (loadTools world6 [("fs", plainCommandConfig)]).2 =
      Except.ok [LoadedTool.mk 1 "fs__x" "fs__fs__x"] ∧
    (∀ t ∈ [LoadedTool.mk 1 "fs__x" "fs__fs__x"],
      ∃ p ∈ ["fs"], t.name = qualifiedToolName p t.rawName) :=
  ⟨rfl,
   (qualifiedToolName_always_prefixed world6 [("fs", plainCommandConfig)]
     [LoadedTool.mk 1 "fs__x" "fs__fs__x"] rfl).1⟩

/-- The SSE provider spec of the repository README: a URL together with a
bearer-token header line. -/
def sseHeadersConfig : MCPServerConfig :=
  MCPServerConfig.mk "" [] "http://some_jhost:8000/sse"
    ["Authorization: Bearer my-token"] [] []

/-- C8: the README documents that configured header strings are attached to
the requests of a URL provider, but `createMCPClient` builds the SSE client
from the URL alone — the request handed to the client library carries no
headers, and is unchanged whatever the configured header list is. -/
theorem createMCPClient_drops_headers :
    createMCPClientRequest "server_name" sseHeadersConfig =
      Except.ok (ClientRequest.sse "http://some_jhost:8000/sse") ∧
    (∀ hs : List String,
      createMCPClientRequest "server_name"
        (MCPServerConfig.mk "" [] "http://some_jhost:8000/sse" hs [] []) =
      createMCPClientRequest "server_name" sseHeadersConfig) := by
  exact ⟨rfl, fun hs => rfl⟩

/-- A provider spec carrying both an allow-list and a deny-list. -/
def bothListsConfig : MCPServerConfig :=
  MCPServerConfig.mk "srv-cmd" [] "" [] ["keep_me"] ["drop_me"]

/-- A load world in which every provider connects, initializes, and lists
the raw tools "keep_me" and "other" (client id 3). -/
def world4 : LoadWorld :=
  fun _ => ServerBehavior.mk (Except.ok 3) (Except.ok ()) (Except.ok ["keep_me", "other"])

/-- C4 counterexample: called on a spec whose allow-list and deny-list are
both non-empty, `LoadTools` does not fail — it attempts the connection and
completes the load (allow-list filtering applied), so the broker's tool
loading does not reject the conflicting spec before connecting. -/
theorem loadTools_connects_despite_conflict :
    loadTools world4 [("s", bothListsConfig)] =
      ([LoadEvent.connect "s" (ClientRequest.stdio "srv-cmd" [])],
       Except.ok [LoadedTool.mk 3 "keep_me" "s__keep_me"]) ∧
    LoadEvent.connect "s" (ClientRequest.stdio "srv-cmd" []) ∈
      (loadTools world4 [("s", bothListsConfig)]).1 := by
  exact ⟨rfl, by decide⟩

/-- C4 as amended: the allow/deny conflict is rejected by `Config.Validate`
during configuration loading, not by `LoadTools`: for any configuration in
which some server carries both lists, `Validate` returns an error, so the
normal-mode pipeline (LoadMCPConfig validation, then LoadTools) fails with
no connection attempted; `LoadTools` itself performs no such check, and on
a spec reaching it directly the allow-list takes precedence. -/
theorem validate_rejects_conflict (c : Config)
    (hconf : ∃ p ∈ c.mcpServers, p.2.allowedTools ≠ [] ∧ p.2.excludedTools ≠ []) :
    (∃ e, Config.validate c = Except.error e) ∧
    (∀ world, ∃ e, loadConfigThenTools world c = ([], Except.error e)) ∧
    (∀ name cfg, cfg.allowedTools ≠ [] →
      shouldIncludeTool name cfg = cfg.allowedTools.contains name) := by
  have hfind : (c.mcpServers.find? (fun p =>
      decide (p.2.allowedTools.length > 0) && decide (p.2.excludedTools.length > 0))).isSome := by
    rw [List.find?_isSome]
    obtain ⟨p, hp, ha, he⟩ := hconf
    refine ⟨p, hp, ?_⟩
    simp only [Bool.and_eq_true, decide_eq_true_eq]
    exact ⟨List.length_pos.mpr ha, List.length_pos.mpr he⟩
  obtain ⟨q, hq⟩ := Option.isSome_iff_exists.mp hfind
  have hv : Config.validate c =
      Except.error ("server " ++ q.1 ++ ": allowedTools and excludedTools are mutually exclusive") := by
    unfold Config.validate
    rw [hq]
  refine ⟨⟨_, hv⟩, ?_, ?_⟩
  · intro world
    refine ⟨"server " ++ q.1 ++ ": allowedTools and excludedTools are mutually exclusive", ?_⟩
    unfold loadConfigThenTools loadMCPConfigValidation
    rw [hv]
  · intro name cfg hne
    unfold shouldIncludeTool
    rw [if_pos (List.length_pos.mpr hne)]

/-- Witness for the amended C4 on a one-server configuration with both
lists non-empty: validation fails, and the pipeline makes no connection. -/
theorem validate_rejects_conflict_witness :
    (∃ p ∈ (Config.mk [("s", bothListsConfig)]).mcpServers,
      p.2.allowedTools ≠ [] ∧ p.2.excludedTools ≠ []) ∧
    (∃ e, Config.validate (Config.mk [("s", bothListsConfig)]) = Except.error e) ∧
    (∃ e, loadConfigThenTools world4 (Config.mk [("s", bothListsConfig)]) =
      ([], Except.error e)) :=
  ⟨⟨("s", bothListsConfig), by decide, by decide, by decide⟩,
   (validate_rejects_conflict (Config.mk [("s", bothListsConfig)])
     ⟨("s", bothListsConfig), by decide, by decide, by decide⟩).1,
   (validate_rejects_conflict (Config.mk [("s", bothListsConfig)])
     ⟨("s", bothListsConfig), by decide, by decide, by decide⟩).2.1 world4⟩

/-- The JSON decoder behavior on the scenario's argument payload. -/
def parse9 : String → Option Args :=
  fun s =>
    if s = "\x7b\"path\":\"/tmp/x\"\x7d" then some [("path", "/tmp/x")] else none

/-- Connected-client behavior for the scenario: client 1 (provider fs)
answers read_file with the text item "data"; every other call is a wrong
connection. -/
def callWorld9 : CallWorld :=
  fun clientId rawName _ =>
    if clientId = 1 ∧ rawName = "read_file" then
      Except.ok (CallToolResult.mk (some [ContentItem.text "data"]))
    else
      Except.error "wrong connection"

/-- A load world in which provider "fs" exposes the raw tool read_file on
client 1, while any other provider has client 2 with an unrelated tool. -/
def worldFs : LoadWorld :=
  fun n =>
    if n = "fs" then ServerBehavior.mk (Except.ok 1) (Except.ok ()) (Except.ok ["read_file"])
    else ServerBehavior.mk (Except.ok 2) (Except.ok ()) (Except.ok ["other_tool"])

/-- C9 counterexample: after loading provider fs (raw tool read_file,
registered as fs__read_file on fs's client), invoking it with the
scenario's arguments returns "data " — the provider's text "data" with a
space appended by the result conversion — not the provider output
unchanged. -/
theorem invokableRun_not_unchanged :
    (loadTools worldFs [("fs", plainCommandConfig)]).2 =
      Except.ok [LoadedTool.mk 1 "read_file" "fs__read_file"] ∧
    invokableRun parse9 callWorld9 1 "read_file" "\x7b\"path\":\"/tmp/x\"\x7d" =
      ([1], Except.ok "data ") ∧
    ("data " : String) ≠ "data" := by
  exact ⟨rfl, rfl, by decide⟩

/-- C9 as amended: invoking the registered fs__read_file calls provider
fs's own client with the raw name and parsed arguments and returns the
provider's text output with a single space appended to each text chunk (a
single chunk t comes back as t ++ " "); and an invocation touches no
client other than the tool's own. -/
theorem invokableRun_routes_to_owner :
    (∀ (parse : String → Option Args) (callTool : CallWorld) (c : Nat) (args : Args)
        (a t : String),
      parse a = some args →
      callTool c "read_file" args = Except.ok (CallToolResult.mk (some [ContentItem.text t])) →
      invokableRun parse callTool c "read_file" a = ([c], Except.ok (t ++ " "))) ∧
    (∀ (parse : String → Option Args) (callTool : CallWorld) (clientId : Nat)
        (rawName a : String),
      ∀ x ∈ (invokableRun parse callTool clientId rawName a).1, x = clientId) := by
  constructor
  · intro parse callTool c args a t hp hc
    unfold invokableRun
    simp only [hp, hc]
    simp [convertCallResult]
  · intro parse callTool clientId rawName a x hx
    unfold invokableRun at hx
    rcases hp : parse a with _ | args
    · simp [hp] at hx
    · simp only [hp] at hx
      rcases hc : callTool clientId rawName args with e | r
      · simp only [hc] at hx
        simpa using hx
      · simp only [hc] at hx
        simpa using hx

/-- Witness for the amended C9 on the concrete fs scenario. -/
theorem invokableRun_routes_to_owner_witness :
    parse9 "\x7b\"path\":\"/tmp/x\"\x7d" = some [("path", "/tmp/x")] ∧
    callWorld9 1 "read_file" [("path", "/tmp/x")] =
      Except.ok (CallToolResult.mk (some [ContentItem.text "data"])) ∧
    invokableRun parse9 callWorld9 1 "read_file" "\x7b\"path\":\"/tmp/x\"\x7d" =
      ([1], Except.ok ("data" ++ " ")) :=
  ⟨rfl, rfl,
   invokableRun_routes_to_owner.1 parse9 callWorld9 1 [("path", "/tmp/x")]
     "\x7b\"path\":\"/tmp/x\"\x7d" "data" rfl rfl⟩

lemma countGenerates_cons_generate (w : List Message) (t : List Event) :
    countGenerates (Event.generate w :: t) = countGenerates t + 1 := by
  simp [countGenerates, List.filter_cons]

/-- The per-response dispatch specification of the orchestration loop for
one model response with tool calls, at fuel + 1 remaining steps: the trace
decomposes into the response step followed by the recursive run on the
extended history; exactly one tool-result message per request is appended,
in request order; the trace is the concatenation of per-request blocks in
request order, each appending its result immediately after its invocation;
when every requested name is in the catalogue there is exactly one
invocation per request, in request order; and the next generate call (when
budget remains) receives the extended history ending with the results. -/
def StepSpec (model : Model) (toolMap : ToolMap) (fuel : Nat)
    (working : List Message) (response : Message) : Prop :=
  (generateWithLoopAux model toolMap (fuel + 1) working =
    (((Event.generate working :: Event.append response ::
        (if response.content ≠ "" then [Event.onToolCallContent response.content] else [])) ++
       (execToolCalls toolMap response.toolCalls).1) ++
      (generateWithLoopAux model toolMap fuel
        ((working ++ [response]) ++ (execToolCalls toolMap response.toolCalls).2)).1,
     (generateWithLoopAux model toolMap fuel
        ((working ++ [response]) ++ (execToolCalls toolMap response.toolCalls).2)).2)) ∧
  (execToolCalls toolMap response.toolCalls).2 =
    response.toolCalls.map (resultMessage toolMap) ∧
  (execToolCalls toolMap response.toolCalls).2.length = response.toolCalls.length ∧
  appendsOf (execToolCalls toolMap response.toolCalls).1 =
    response.toolCalls.map (resultMessage toolMap) ∧
  (execToolCalls toolMap response.toolCalls).1 =
    response.toolCalls.flatMap (fun tc => (execToolCall toolMap tc).1) ∧
  (∀ tc ∈ response.toolCalls, (toolMap tc.name).isSome →
    ∃ r b, (execToolCall toolMap tc).1 =
      [Event.onToolCall tc.name tc.arguments, Event.invoke tc.name tc.arguments,
       Event.append (toolMessage r tc.id), Event.onToolResult tc.name tc.arguments r b] ∧
      resultMessage toolMap tc = toolMessage r tc.id) ∧
  ((∀ tc ∈ response.toolCalls, (toolMap tc.name).isSome) →
    invokesOf (execToolCalls toolMap response.toolCalls).1 =
      response.toolCalls.map (fun tc => (tc.name, tc.arguments))) ∧
  (1 ≤ fuel → ∃ t,
    (generateWithLoopAux model toolMap fuel
      ((working ++ [response]) ++ (execToolCalls toolMap response.toolCalls).2)).1 =
    Event.generate ((working ++ [response]) ++ (execToolCalls toolMap response.toolCalls).2) :: t)

/-- C1: for a model response carrying N tool-call requests, the loop
dispatches the requests in the exact order the model issued them and
appends exactly N tool-result messages to the working history in that same
order, each appended immediately after its invocation and all before the
next model generate call; when every requested tool is in the catalogue,
exactly N tool invocations occur, in request order. -/
theorem loop_dispatch_in_order (model : Model) (toolMap : ToolMap) (fuel : Nat)
    (working : List Message) (response : Message)
    (hmodel : model working = Except.ok response)
    (hne : response.toolCalls ≠ []) :
    StepSpec model toolMap fuel working response := by
  refine ⟨generateWithLoopAux_step model toolMap fuel working response hmodel hne,
    execToolCalls_snd toolMap response.toolCalls, ?_,
    appendsOf_execToolCalls toolMap response.toolCalls,
    execToolCalls_fst toolMap response.toolCalls, ?_,
    invokesOf_execToolCalls toolMap response.toolCalls, ?_⟩
  · rw [execToolCalls_snd toolMap response.toolCalls, List.length_map]
  · intro tc _ hsome
    obtain ⟨run, hr⟩ := Option.isSome_iff_exists.mp hsome
    rcases h2 : run tc.arguments with e | output
    · exact ⟨"Tool execution error: " ++ e, true,
        by rw [execToolCall_error toolMap tc run e hr h2],
        by unfold resultMessage; rw [execToolCall_error toolMap tc run e hr h2]⟩
    · exact ⟨output, false,
        by rw [execToolCall_ok toolMap tc run output hr h2],
        by unfold resultMessage; rw [execToolCall_ok toolMap tc run output hr h2]⟩
  · intro hf
    obtain ⟨n, rfl⟩ : ∃ n, fuel = n + 1 := ⟨fuel - 1, by omega⟩
    exact generateWithLoopAux_head model toolMap n _

/-- A tool-call request answered by the catalogue in the C1 witness. -/
def tcFound : ToolCall := ToolCall.mk "id1" "fs__read" "argA"

/-- A tool-call request absent from the catalogue in the C1 witness. -/
def tcMissing : ToolCall := ToolCall.mk "id2" "gone" "argB"

/-- The witness response carrying two tool-call requests. -/
def respW : Message := assistantMessage "plan" [tcFound, tcMissing]

/-- The witness model: always answers with `respW`. -/
def modelW : Model := fun _ => Except.ok respW

/-- The witness catalogue: only fs__read is registered. -/
def toolMapW : ToolMap :=
  fun n => if n = "fs__read" then some (fun a => Except.ok ("out:" ++ a)) else none

/-- Witness for C1 at a concrete two-request response. -/
theorem loop_dispatch_in_order_witness :
    modelW [] = Except.ok respW ∧ respW.toolCalls ≠ [] ∧
    StepSpec modelW toolMapW 1 [] respW :=
  ⟨rfl, by decide, loop_dispatch_in_order modelW toolMapW 1 [] respW rfl (by decide)⟩

/-- C3: a per-tool dispatch failure never terminates the loop: a request
whose name is absent from the catalogue (for example a tool removed by the
excludedTools filter) yields the synthesized "Tool not found" result, a
request whose invocation errors yields the synthesized "Tool execution
error" result, the synthesized result is among the messages appended after
the response, and the next generate call still occurs, seeing the extended
history; a name on a spec's deny-list (with no allow-list) is indeed
excluded from the catalogue by shouldIncludeTool. -/
theorem loop_survives_dispatch_failure (model : Model) (toolMap : ToolMap)
    (working : List Message) (response : Message) (tc : ToolCall)
    (hmodel : model working = Except.ok response)
    (htc : tc ∈ response.toolCalls) :
    (toolMap tc.name = none →
      resultMessage toolMap tc = toolMessage ("Tool not found: " ++ tc.name) tc.id) ∧
    (∀ run e, toolMap tc.name = some run → run tc.arguments = Except.error e →
      resultMessage toolMap tc = toolMessage ("Tool execution error: " ++ e) tc.id) ∧
    resultMessage toolMap tc ∈ (execToolCalls toolMap response.toolCalls).2 ∧
    (∀ fuel,
      Event.generate ((working ++ [response]) ++ (execToolCalls toolMap response.toolCalls).2) ∈
        (generateWithLoopAux model toolMap (fuel + 2) working).1 ∧
      2 ≤ countGenerates (generateWithLoopAux model toolMap (fuel + 2) working).1) ∧
    (∀ cfg : MCPServerConfig, cfg.allowedTools = [] → tc.name ∈ cfg.excludedTools →
      shouldIncludeTool tc.name cfg = false) := by
  have hne : response.toolCalls ≠ [] := List.ne_nil_of_mem htc
  refine ⟨?_, ?_, ?_, ?_, ?_⟩
  · intro h
    unfold resultMessage
    rw [execToolCall_none toolMap tc h]
  · intro run e hr he
    unfold resultMessage
    rw [execToolCall_error toolMap tc run e hr he]
  · rw [execToolCalls_snd toolMap response.toolCalls]
    exact List.mem_map_of_mem (resultMessage toolMap) htc
  · intro fuel
    rw [generateWithLoopAux_step model toolMap (fuel + 1) working response hmodel hne]
    obtain ⟨t, ht⟩ := generateWithLoopAux_head model toolMap fuel
      ((working ++ [response]) ++ (execToolCalls toolMap response.toolCalls).2)
    constructor
    · apply List.mem_append.mpr
      right
      rw [ht]
      exact List.mem_cons_self _ _
    · rw [countGenerates_append, countGenerates_append, countGenerates_loop_head,
        countGenerates_execToolCalls, ht, countGenerates_cons_generate]
      omega
  · intro cfg hall hexc
    have hnn : cfg.excludedTools ≠ [] := List.ne_nil_of_mem hexc
    simp [shouldIncludeTool, hall, List.length_pos.mpr hnn, hexc]

/-- The witness model for C3: always answers with a response requesting
only the missing tool. -/
def modelM : Model := fun _ => Except.ok (assistantMessage "" [tcMissing])

/-- Witness for C3: the missing tool's synthesized result and the second
generate call on the concrete run. -/
theorem loop_survives_dispatch_failure_witness :
    modelM [] = Except.ok (assistantMessage "" [tcMissing]) ∧
    tcMissing ∈ (assistantMessage "" [tcMissing]).toolCalls ∧
    (toolMapW tcMissing.name = none →
      resultMessage toolMapW tcMissing =
        toolMessage ("Tool not found: " ++ tcMissing.name) tcMissing.id) ∧
    resultMessage toolMapW tcMissing ∈
      (execToolCalls toolMapW (assistantMessage "" [tcMissing]).toolCalls).2 :=
  ⟨rfl, by decide,
   (loop_survives_dispatch_failure modelM toolMapW [] (assistantMessage "" [tcMissing])
     tcMissing rfl (by decide)).1,
   (loop_survives_dispatch_failure modelM toolMapW [] (assistantMessage "" [tcMissing])
     tcMissing rfl (by decide)).2.2.1⟩

/-! ## Qualified-name uniqueness -/

lemma underscore_sep_inj (p1 : List Char) :
    ∀ (p2 r1 r2 : List Char), ('_' : Char) ∉ p1 → ('_' : Char) ∉ p2 →
      p1 ++ '_' :: '_' :: r1 = p2 ++ '_' :: '_' :: r2 → p1 = p2 ∧ r1 = r2 := by
  induction p1 with
  | nil =>
    intro p2 r1 r2 _ h2 h
    cases p2 with
    | nil =>
      simp only [List.nil_append, List.cons.injEq, true_and] at h
      exact ⟨rfl, h⟩
    | cons b bs =>
      simp only [List.nil_append, List.cons_append, List.cons.injEq] at h
      exfalso
      apply h2
      rw [← h.1]
      exact List.mem_cons_self _ _
  | cons a as ih =>
    intro p2 r1 r2 h1 h2 h
    cases p2 with
    | nil =>
      simp only [List.cons_append, List.nil_append, List.cons.injEq] at h
      obtain ⟨ha, _⟩ := h
      subst ha
      exact absurd (List.mem_cons_self _ _) h1
    | cons b bs =>
      simp only [List.cons_append, List.cons.injEq] at h
      obtain ⟨hab, htail⟩ := h
      subst hab
      have hres := ih bs r1 r2 (fun hm => h1 (List.mem_cons_of_mem _ hm))
        (fun hm => h2 (List.mem_cons_of_mem _ hm)) htail
      exact ⟨by rw [hres.1], hres.2⟩

lemma qualifiedToolName_inj (p1 p2 r1 r2 : String)
    (h1 : ('_' : Char) ∉ p1.data) (h2 : ('_' : Char) ∉ p2.data)
    (h : qualifiedToolName p1 r1 = qualifiedToolName p2 r2) : p1 = p2 ∧ r1 = r2 := by
  have hlit : ("__" : String).data = ['_', '_'] := rfl
  have hd : p1.data ++ '_' :: '_' :: r1.data = p2.data ++ '_' :: '_' :: r2.data := by
    have hcongr := congrArg String.data h
    simp only [qualifiedToolName, String.data_append, hlit, List.append_assoc,
      List.cons_append, List.nil_append] at hcongr
    exact hcongr
  obtain ⟨hp, hr⟩ := underscore_sep_inj p1.data p2.data r1.data r2.data h1 h2 hd
  exact ⟨String.ext hp, String.ext hr⟩

lemma qualifiedToolName_inj_right (p : String) :
    Function.Injective (qualifiedToolName p) := by
  intro r1 r2 h
  have hcongr := congrArg String.data h
  simp only [qualifiedToolName, String.data_append] at hcongr
  exact String.ext (List.append_cancel_left hcongr)

/-- A load world with two providers each exposing the listed raw name as
client 1 respectively client 2 (used for the uniqueness counterexample). -/
def worldC5 : LoadWorld :=
  fun n =>
    if n = "a" then ServerBehavior.mk (Except.ok 1) (Except.ok ()) (Except.ok ["b__x"])
    else ServerBehavior.mk (Except.ok 2) (Except.ok ()) (Except.ok ["x"])

/-- C5 counterexample: provider "a" exposing raw tool "b__x" and provider
"a__b" exposing raw tool "x" both load successfully and are both registered
under the qualified name "a__b__x" — the registered qualified names are not
unique across the broker. -/
theorem loadTools_name_collision :
    (loadTools worldC5 [("a", plainCommandConfig), ("a__b", plainCommandConfig)]).2 =
      Except.ok [LoadedTool.mk 1 "b__x" "a__b__x", LoadedTool.mk 2 "x" "a__b__x"] ∧
    ¬ (([LoadedTool.mk 1 "b__x" "a__b__x",
         LoadedTool.mk 2 "x" "a__b__x"].map LoadedTool.name).Nodup) := by
  exact ⟨rfl, by decide⟩

/-- C5 as amended: LoadTools performs no deduplication, so uniqueness of
the registered qualified names is conditional: it holds whenever the
configured provider names are pairwise distinct and contain no underscore
and each provider's kept raw tool names are distinct. -/
theorem loadTools_names_nodup (world : LoadWorld)
    (servers : List (String × MCPServerConfig)) (tools : List LoadedTool)
    (hok : (loadTools world servers).2 = Except.ok tools)
    (hkeys : (servers.map Prod.fst).Nodup)
    (hus : ∀ p ∈ servers, ('_' : Char) ∉ p.1.data)
    (hraw : ∀ p ∈ servers, (keptRaw world p).Nodup) :
    (tools.map LoadedTool.name).Nodup := by
  rw [loadTools_ok_flat world servers tools hok]
  clear hok
  induction servers with
  | nil => simp
  | cons p rest ih =>
    simp only [List.flatMap_cons, List.nodup_append]
    refine ⟨?_, ?_, ?_⟩
    · exact (hraw p (List.mem_cons_self _ _)).map (qualifiedToolName_inj_right p.1)
    · exact ih ((List.nodup_cons.mp (by simpa using hkeys)).2)
        (fun q hq => hus q (List.mem_cons_of_mem _ hq))
        (fun q hq => hraw q (List.mem_cons_of_mem _ hq))
    · intro x hx1 hx2
      obtain ⟨r, _, hxr⟩ := List.mem_map.mp hx1
      obtain ⟨q, hq, hxq⟩ := List.mem_flatMap.mp hx2
      obtain ⟨r2, _, hxr2⟩ := List.mem_map.mp hxq
      have heq : qualifiedToolName p.1 r = qualifiedToolName q.1 r2 := by
        rw [hxr, hxr2]
      have hpq := (qualifiedToolName_inj p.1 q.1 r r2
        (hus p (List.mem_cons_self _ _)) (hus q (List.mem_cons_of_mem _ hq)) heq).1
      have hhead : p.1 ∉ rest.map Prod.fst :=
        (List.nodup_cons.mp (by simpa using hkeys)).1
      exact hhead (hpq ▸ List.mem_map_of_mem Prod.fst hq)

/-- A load world with two providers "a" and "b" both exposing raw tool
"run" (clients 1 and 2). -/
def worldRun : LoadWorld :=
  fun n =>
    if n = "a" then ServerBehavior.mk (Except.ok 1) (Except.ok ()) (Except.ok ["run"])
    else ServerBehavior.mk (Except.ok 2) (Except.ok ()) (Except.ok ["run"])

/-- Witness for the amended C5: providers "a" and "b" both exposing "run"
load to the distinct qualified names "a__run" and "b__run". -/
theorem loadTools_names_nodup_witness :
    (loadTools worldRun [("a", plainCommandConfig), ("b", plainCommandConfig)]).2 =
      Except.ok [LoadedTool.mk 1 "run" "a__run", LoadedTool.mk 2 "run" "b__run"] ∧
    (([LoadedTool.mk 1 "run" "a__run",
       LoadedTool.mk 2 "run" "b__run"].map LoadedTool.name)).Nodup :=
  ⟨rfl,
   loadTools_names_nodup worldRun [("a", plainCommandConfig), ("b", plainCommandConfig)]
     [LoadedTool.mk 1 "run" "a__run", LoadedTool.mk 2 "run" "b__run"] rfl
     (by decide) (by decide) (by decide)⟩

/-! ## Frame property of GenerateWithLoop over Go slices -/

lemma Heap.read_alloc (h : Heap) (c : List Message) (t : Slice)
    (ht : t.arr < h.arrays.length) : (h.alloc c).1.read t = h.read t := by
  unfold Heap.alloc Heap.read Heap.arrayAt
  rw [List.getD_append h.arrays [c] [] t.arr ht]

lemma Heap.length_alloc (h : Heap) (c : List Message) :
    (h.alloc c).1.arrays.length = h.arrays.length + 1 := by
  simp [Heap.alloc]

lemma Heap.read_writeArr_ne (h : Heap) (i : Nat) (c : List Message) (t : Slice)
    (hne : i ≠ t.arr) : (h.writeArr i c).read t = h.read t := by
  unfold Heap.writeArr Heap.read Heap.arrayAt
  rw [List.getD_eq_getElem?_getD, List.getD_eq_getElem?_getD, List.getElem?_set_ne hne]

lemma Heap.length_writeArr (h : Heap) (i : Nat) (c : List Message) :
    (h.writeArr i c).arrays.length = h.arrays.length := by
  simp [Heap.writeArr]

lemma appendSlice_frame (h : Heap) (s : Slice) (x : Message) (t : Slice)
    (ht : t.arr < h.arrays.length) (hne : s.arr ≠ t.arr) :
    (h.appendSlice s x).1.read t = h.read t ∧
    t.arr < (h.appendSlice s x).1.arrays.length ∧
    (h.appendSlice s x).2.arr ≠ t.arr := by
  unfold Heap.appendSlice
  by_cases hc : s.len < h.cap s
  · simp only [if_pos hc]
    exact ⟨Heap.read_writeArr_ne h s.arr _ t hne,
      by rw [Heap.length_writeArr]; exact ht, hne⟩
  · simp only [if_neg hc]
    refine ⟨Heap.read_alloc h _ t ht, ?_, ?_⟩
    · rw [Heap.length_alloc]
      omega
    · simp only [Heap.alloc]
      omega

lemma execToolCallsH_frame (toolMap : ToolMap) :
    ∀ (tcs : List ToolCall) (h : Heap) (s t : Slice),
      t.arr < h.arrays.length → s.arr ≠ t.arr →
      (execToolCallsH toolMap tcs h s).1.read t = h.read t ∧
      t.arr < (execToolCallsH toolMap tcs h s).1.arrays.length ∧
      (execToolCallsH toolMap tcs h s).2.arr ≠ t.arr := by
  intro tcs
  induction tcs with
  | nil => intro h s t ht hne; exact ⟨rfl, ht, hne⟩
  | cons tc rest ih =>
    intro h s t ht hne
    simp only [execToolCallsH]
    obtain ⟨h1, h2, h3⟩ := appendSlice_frame h s (resultMessage toolMap tc) t ht hne
    obtain ⟨g1, g2, g3⟩ := ih (h.appendSlice s (resultMessage toolMap tc)).1
      (h.appendSlice s (resultMessage toolMap tc)).2 t h2 h3
    exact ⟨by rw [g1, h1], g2, g3⟩

lemma generateWithLoopAuxH_frame (model : Model) (toolMap : ToolMap) :
    ∀ (fuel : Nat) (h : Heap) (w t : Slice),
      t.arr < h.arrays.length → w.arr ≠ t.arr →
      (generateWithLoopAuxH model toolMap fuel h w).1.read t = h.read t := by
  intro fuel
  induction fuel with
  | zero => intro h w t _ _; rfl
  | succ n ih =>
    intro h w t ht hne
    rcases hm : model (h.read w) with e | response
    · simp only [generateWithLoopAuxH, hm]
    · simp only [generateWithLoopAuxH, hm]
      obtain ⟨h1, h2, h3⟩ := appendSlice_frame h w response t ht hne
      by_cases htc : response.toolCalls.length > 0
      · simp only [if_pos htc]
        obtain ⟨g1, g2, g3⟩ := execToolCallsH_frame toolMap response.toolCalls
          (h.appendSlice w response).1 (h.appendSlice w response).2 t h2 h3
        rw [ih _ _ t g2 g3, g1, h1]
      · simp only [if_neg htc]
        exact h1

lemma withSystemPromptH_frame (sp : String) (h : Heap) (w t : Slice)
    (ht : t.arr < h.arrays.length) (hne : w.arr ≠ t.arr) :
    (withSystemPromptH sp h w).1.read t = h.read t ∧
    t.arr < (withSystemPromptH sp h w).1.arrays.length ∧
    (withSystemPromptH sp h w).2.arr ≠ t.arr := by
  unfold withSystemPromptH
  by_cases hsp : sp ≠ ""
  · simp only [if_pos hsp]
    split
    · exact ⟨rfl, ht, hne⟩
    · refine ⟨Heap.read_alloc h _ t ht, ?_, ?_⟩
      · rw [Heap.length_alloc]
        omega
      · simp only [Heap.alloc]
        omega
  · rw [if_neg hsp]
    exact ⟨rfl, ht, hne⟩

/-- C10: GenerateWithLoop never mutates the caller's message list: it
copies the messages into a fresh working slice and appends the system
prompt, model responses, and tool results only to that copy, so after the
call returns the caller's slice still reads as the same list — same length
and same elements — as before the call. -/
theorem generateWithLoop_frame (model : Model) (toolMap : ToolMap)
    (systemPrompt : String) (maxSteps : Nat) (h : Heap) (messages : Slice)
    (hvalid : messages.arr < h.arrays.length) :
    ((generateWithLoopH model toolMap systemPrompt maxSteps h messages).1).read messages =
      h.read messages := by
  unfold generateWithLoopH
  have hw1ne : (h.alloc (List.replicate messages.len nilMessage)).2 ≠ messages.arr := by
    simp only [Heap.alloc]
    omega
  have hr1 : (h.alloc (List.replicate messages.len nilMessage)).1.read messages =
      h.read messages := Heap.read_alloc h _ messages hvalid
  have hl1 : messages.arr <
      (h.alloc (List.replicate messages.len nilMessage)).1.arrays.length := by
    rw [Heap.length_alloc]
    omega
  set h1 := (h.alloc (List.replicate messages.len nilMessage)).1 with hh1
  set idW := (h.alloc (List.replicate messages.len nilMessage)).2 with hidW
  have hr2 : (h1.writeArr idW (copyInto (h1.arrayAt idW) (h1.read messages))).read messages =
      h1.read messages :=
    Heap.read_writeArr_ne h1 idW _ messages hw1ne
  have hl2 : messages.arr <
      (h1.writeArr idW (copyInto (h1.arrayAt idW) (h1.read messages))).arrays.length := by
    rw [Heap.length_writeArr]
    exact hl1
  set h2 := h1.writeArr idW (copyInto (h1.arrayAt idW) (h1.read messages)) with hh2
  obtain ⟨hs1, hs2, hs3⟩ := withSystemPromptH_frame systemPrompt h2
    (Slice.mk idW messages.len) messages hl2 hw1ne
  rw [generateWithLoopAuxH_frame model toolMap maxSteps
    (withSystemPromptH systemPrompt h2 (Slice.mk idW messages.len)).1
    (withSystemPromptH systemPrompt h2 (Slice.mk idW messages.len)).2 messages hs2 hs3,
    hs1, hr2, hr1]

/-- The witness model for the frame property: answers immediately with a
plain response. -/
def modelF : Model := fun _ => Except.ok (assistantMessage "done" [])

/-- Witness for C10 on a one-message caller slice. -/
theorem generateWithLoop_frame_witness :
    (Slice.mk 0 1).arr < (Heap.mk [[Message.mk Role.user "hi" "" []]]).arrays.length ∧
    ((generateWithLoopH modelF emptyToolMap "sys" 2
        (Heap.mk [[Message.mk Role.user "hi" "" []]]) (Slice.mk 0 1)).1).read
        (Slice.mk 0 1) =
      (Heap.mk [[Message.mk Role.user "hi" "" []]]).read (Slice.mk 0 1) :=
  ⟨by decide,
   generateWithLoop_frame modelF emptyToolMap "sys" 2
     (Heap.mk [[Message.mk Role.user "hi" "" []]]) (Slice.mk 0 1) (by decide)⟩

end MCPHost
